import Mathlib

/-!
# DiagramAI editor core — shallow embedding

A shallow embedding of the diagram-editing core of the DiagramAI
repository: the React Flow node/edge data carried by the editor, the
handle sets declared by the custom node components (`ActorNode`,
`UseCaseNode`, `SystemNode`), and the editing operations of the
`DiagramEditor` component (`onDrop`, `onConnect`, selection,
`handleDeleteSelected`) together with the label-commit handlers
(`EditableLabel.handleSave` for nodes, `EditableEdgeLabel.handleSave`
for edges) and the dependency-edge display-label synthesis.

Environment inputs (drag payloads, `Date.now()`, the JSON-parse outcome
of the drop data blob, the selection produced by the canvas) enter as
explicit parameters of the operations.  The React Flow library function
`addEdge`, which `onConnect` calls, is embedded with its documented
semantics: it refuses a connection with an empty source or target id,
refuses a duplicate connection (same source, target and handle pair),
and otherwise appends the edge.
-/

namespace DiagramAI

/-! ## Decimal rendering of the numeric id counters

`generateNodeId` renders the counter as `` `node_${nodeIdCounter++}` ``
and `onConnect` renders the clock as `` `edge_${Date.now()}` ``.
JavaScript template interpolation prints a nonnegative integer in
decimal; `natDec` reproduces that rendering with fuel-based structural
recursion so that concrete runs reduce in the kernel. -/

/-- The decimal digit character for `d < 10` (JS digit rendering). -/
def digitCh (d : Nat) : Char :=
  match d with
  | 0 => '0' | 1 => '1' | 2 => '2' | 3 => '3' | 4 => '4'
  | 5 => '5' | 6 => '6' | 7 => '7' | 8 => '8' | _ => '9'

/-- Digit list of `n`, most significant first; `fuel` bounds recursion depth. -/
def natDecAux : Nat → Nat → List Char
  | 0, _ => []
  | fuel + 1, n =>
    if n < 10 then [digitCh n]
    else natDecAux fuel (n / 10) ++ [digitCh (n % 10)]

/-- Decimal string of a natural number, as JS `${n}` prints it. -/
def natDec (n : Nat) : String := ⟨natDecAux (n + 1) n⟩

/-- Numeric value of a digit character — the proof-side inverse of `digitCh`. -/
def chVal (c : Char) : Nat := c.toNat - '0'.toNat

/-- Numeric value of a digit list, most significant first. -/
def listVal (ds : List Char) : Nat := ds.foldl (fun a c => a * 10 + chVal c) 0

theorem listVal_append_singleton (ds : List Char) (c : Char) :
    listVal (ds ++ [c]) = 10 * listVal ds + chVal c := by
  simp [listVal, List.foldl_append, Nat.mul_comm]

theorem chVal_digitCh {d : Nat} (h : d < 10) : chVal (digitCh d) = d := by
  interval_cases d <;> decide

theorem listVal_natDecAux : ∀ fuel n, n < fuel → listVal (natDecAux fuel n) = n := by
  intro fuel
  induction fuel with
  | zero => intro n h; omega
  | succ f ih =>
    intro n h
    by_cases hn : n < 10
    · simp [natDecAux, hn, listVal, chVal_digitCh hn]
    · have hdiv : n / 10 < n := Nat.div_lt_self (by omega) (by omega)
      have : n / 10 < f := by omega
      simp only [natDecAux, hn, if_false, listVal_append_singleton, ih _ this,
        chVal_digitCh (Nat.mod_lt n (by omega))]
      omega

theorem natDec_injective : Function.Injective natDec := by
  intro m n h
  have hm := listVal_natDecAux (m + 1) m (Nat.lt_succ_self m)
  have hn := listVal_natDecAux (n + 1) n (Nat.lt_succ_self n)
  have hdata : natDecAux (m + 1) m = natDecAux (n + 1) n :=
    congrArg String.data h
  rw [hdata, hn] at hm
  omega

/-- Left-cancellation for string append, via the underlying char lists. -/
theorem string_append_left_cancel {p s t : String} (h : p ++ s = p ++ t) : s = t := by
  cases p with
  | mk pd =>
    cases s with
    | mk sd =>
      cases t with
      | mk td =>
        have : pd ++ sd = pd ++ td := congrArg String.data h
        exact congrArg String.mk (List.append_cancel_left this)

/-- The id `generateNodeId` mints at counter value `k`: `` `node_${k}` ``. -/
def nodeIdStr (k : Nat) : String := "node_" ++ natDec k

/-- The id `onConnect` mints at clock value `t`: `` `edge_${t}` ``. -/
def edgeIdStr (t : Nat) : String := "edge_" ++ natDec t

theorem nodeIdStr_injective : Function.Injective nodeIdStr := by
  intro m n h
  exact natDec_injective (string_append_left_cancel h)

theorem edgeIdStr_injective : Function.Injective edgeIdStr := by
  intro m n h
  exact natDec_injective (string_append_left_cancel h)

/-! ## Handle taxonomy

Transcribed from the `<Handle …>` elements of the node components:
`ActorNode` declares `right-source`, `right-target`, `left-source`,
`left-target`; `UseCaseNode` declares source+target handles on left,
right, top and bottom; `SystemNode` declares source+target handles on
left and right only. -/

inductive Side where
  | top | bottom | left | right
deriving DecidableEq, Repr

inductive Dir where
  | src | tgt
deriving DecidableEq, Repr

def sideStr : Side → String
  | .top => "top" | .bottom => "bottom" | .left => "left" | .right => "right"

def dirStr : Dir → String
  | .src => "source" | .tgt => "target"

/-- The handle id string the components pass as the `id` prop. -/
def handleIdStr (s : Side) (d : Dir) : String := sideStr s ++ "-" ++ dirStr d

/-- The `(side, direction)` handle set each node component declares,
in component order.  Unknown node types declare no handles. -/
def handlesFor (ty : String) : List (Side × Dir) :=
  if ty = "actor" then
    [(.right, .src), (.right, .tgt), (.left, .src), (.left, .tgt)]
  else if ty = "usecase" then
    [(.left, .src), (.left, .tgt), (.right, .src), (.right, .tgt),
     (.top, .src), (.top, .tgt), (.bottom, .src), (.bottom, .tgt)]
  else if ty = "system" then
    [(.left, .src), (.left, .tgt), (.right, .src), (.right, .tgt)]
  else []

/-- The handle id strings a node of the given type exposes. -/
def handleIdsFor (ty : String) : List String :=
  (handlesFor ty).map fun p => handleIdStr p.1 p.2

/-! ## Node and edge records

The fields of the React Flow `Node` and `Edge` records the editor
reads or writes.  `data.label` and `data.type` of edges are `label`
and `depType` here; `markerEnd` and other style-only fields are
omitted.  `none` models a JS `null`/`undefined` field. -/

structure RFNode where
  id : String
  ty : String
  label : String
  x : Int
  y : Int
  selected : Bool
deriving DecidableEq, Repr

structure RFEdge where
  id : String
  ty : String
  source : String
  target : String
  sourceHandle : Option String
  targetHandle : Option String
  label : Option String
  depType : Option String
  selected : Bool
deriving DecidableEq, Repr

/-- The editor state: React Flow's node and edge arrays, the module-level
`nodeIdCounter`, and the `selectedEdgeType` React state. -/
structure EditorState where
  nodes : List RFNode
  edges : List RFEdge
  counter : Nat
  edgeType : String
deriving DecidableEq, Repr

/-- The editor as mounted with the default empty `initialNodes` and
`initialEdges`, `nodeIdCounter = 1`, and edge type `'association'`. -/
def initState : EditorState :=
  { nodes := [], edges := [], counter := 1, edgeType := "association" }

def nodeIds (s : EditorState) : List String := s.nodes.map RFNode.id

def edgeIds (s : EditorState) : List String := s.edges.map RFEdge.id

/-! ## The React Flow `addEdge` helper

`onConnect` hands the new edge to `addEdge(newEdge, eds)`.  The library
function returns the array unchanged when the connection's source or
target id is empty/null, or when an edge with the same source, target,
source handle and target handle already exists; otherwise it appends
the edge. -/

/-- The `connectionExists` check of `@xyflow/system`: same endpoints and
same handle pair (null handles compare equal to null). -/
def connectionExists (e : RFEdge) (es : List RFEdge) : Bool :=
  es.any fun x =>
    decide (x.source = e.source ∧ x.target = e.target ∧
      x.sourceHandle = e.sourceHandle ∧ x.targetHandle = e.targetHandle)

/-- The `addEdge` function of `@xyflow/react`, specialized to an edge that
already carries an id (as `onConnect` builds one). -/
def addEdge (e : RFEdge) (es : List RFEdge) : List RFEdge :=
  if e.source = "" ∨ e.target = "" then es
  else if connectionExists e es then es
  else es ++ [e]

/-! ## The drop payload

`onDrop` reads the type tag and a JSON data blob from the drag payload.
The parse outcome is an environment input: `none` models
`JSON.parse(dataString)` throwing (the `catch` keeps the default data),
`some none` a parse result without a string `label` field (spreading it
leaves the default label), and `some (some l)` a parse result whose
`label` field is `l`. -/

/-- The default label `type.charAt(0).toUpperCase() + type.slice(1)`,
computed on the underlying character list. -/
def capitalizeFirst (s : String) : String :=
  match s.data with
  | [] => ""
  | c :: rest => ⟨c.toUpper :: rest⟩

/-- JS `String.prototype.trim`: strip whitespace from both ends,
computed on the underlying character list. -/
def jsTrim (s : String) : String :=
  ⟨((s.data.dropWhile Char.isWhitespace).reverse.dropWhile
      Char.isWhitespace).reverse⟩

/-- The label of the node `onDrop` creates, given the parse outcome of
the data blob. -/
def dropLabel (ty : String) (parsed : Option (Option String)) : String :=
  match parsed with
  | some (some l) => l
  | _ => capitalizeFirst ty

/-! ## Display label of dependency edges

`DependencyEdge` renders
`data?.label || (data?.type ? `«` + data.type + `»` : '')`:
a non-empty stored label wins, otherwise the guillemet-wrapped
dependency kind when present, otherwise nothing.  `AssociationEdge`
renders the stored label alone.  This is the `value` the editable edge
label receives, and it is recomputed on each render. -/

/-- The guillemet synthesis `«type»` for a dependency kind, `""` when absent. -/
def depSynthLabel (e : RFEdge) : String :=
  match e.depType with
  | some t => "«" ++ t ++ "»"
  | none => ""

/-- The label text the edge components display (and pass to
`EditableEdgeLabel` as `value`).  Empty-string means no label rendered. -/
def displayedLabel (e : RFEdge) : String :=
  if e.ty = "dependency" then
    if e.label.getD "" ≠ "" then e.label.getD "" else depSynthLabel e
  else e.label.getD ""

/-! ## Editing operations

One constructor per user-visible editing action of the
`DiagramEditorInternal` component.  Environment inputs (drop position
and payload, `Date.now()`, the canvas selection) are constructor
arguments. -/

inductive Op where
  /-- A drop from the shapes sidebar: type tag, parse outcome of the
  data blob, and the flow position of the drop. -/
  | drop (ty : String) (parsed : Option (Option String)) (x y : Int)
  /-- The sidebar's edge-type selector (`setSelectedEdgeType`). -/
  | setEdgeType (ty : String)
  /-- A connection gesture: `onConnect` with the given `Connection`
  params, at clock value `now` (`Date.now()` in milliseconds). -/
  | connect (source target : String)
      (sourceHandle targetHandle : Option String) (now : Nat)
  /-- The canvas updating which elements are selected. -/
  | select (selN selE : List String)
  /-- The Delete toolbar button (`handleDeleteSelected`). -/
  | deleteSelected
  /-- Committing a node label edit (`EditableLabel.handleSave` with the
  edited text). -/
  | relabelNode (id : String) (text : String)
  /-- Committing an edge label edit (`EditableEdgeLabel.handleSave`). -/
  | relabelEdge (id : String) (text : String)
deriving DecidableEq, Repr

/-- The edge `onConnect` builds before calling `addEdge`: a fresh
`Date.now()`-based id, the currently selected edge type, and
`data = { type: 'include' }` when that type is `'dependency'`,
no data otherwise. -/
def mkConnectEdge (s : EditorState) (source target : String)
    (sh th : Option String) (now : Nat) : RFEdge :=
  { id := edgeIdStr now
    ty := s.edgeType
    source := source
    target := target
    sourceHandle := sh
    targetHandle := th
    label := none
    depType := if s.edgeType = "dependency" then some "include" else none
    selected := false }

/-- Node label commit, `EditableLabel.handleSave`: commit `editValue.trim()` to the node's
label when it is non-empty and differs from the current label;
otherwise leave the node untouched. -/
def relabelNodeFn (id text : String) (n : RFNode) : RFNode :=
  if n.id = id ∧ jsTrim text ≠ "" ∧ jsTrim text ≠ n.label then
    { n with label := jsTrim text }
  else n

/-- Edge label commit, `EditableEdgeLabel.handleSave`: commit `editValue.trim()` to the
edge's `data.label` whenever it differs from the displayed `value`.
The editable label is only rendered (so the handler can only fire)
when the displayed label is non-empty. -/
def relabelEdgeFn (id text : String) (e : RFEdge) : RFEdge :=
  if e.id = id ∧ displayedLabel e ≠ "" ∧ jsTrim text ≠ displayedLabel e then
    { e with label := some (jsTrim text) }
  else e

/-- One editing step of the `DiagramEditorInternal` component. -/
def step (s : EditorState) : Op → EditorState
  | .drop ty parsed x y =>
    if ty = "" then s
    else
      { s with
        nodes := s.nodes ++
          [{ id := nodeIdStr s.counter, ty := ty,
             label := dropLabel ty parsed, x := x, y := y, selected := false }]
        counter := s.counter + 1 }
  | .setEdgeType ty => { s with edgeType := ty }
  | .connect source target sh th now =>
    { s with edges := addEdge (mkConnectEdge s source target sh th now) s.edges }
  | .select selN selE =>
    { s with
      nodes := s.nodes.map fun n => { n with selected := decide (n.id ∈ selN) }
      edges := s.edges.map fun e => { e with selected := decide (e.id ∈ selE) } }
  | .deleteSelected =>
    { s with
      nodes := s.nodes.filter fun n => !n.selected
      edges := s.edges.filter fun e => !e.selected }
  | .relabelNode id text => { s with nodes := s.nodes.map (relabelNodeFn id text) }
  | .relabelEdge id text => { s with edges := s.edges.map (relabelEdgeFn id text) }

/-- Running an operation sequence from a state. -/
def run (s : EditorState) (ops : List Op) : EditorState := ops.foldl step s

/-! ## The structural validity predicate

The invariants of spec §3/§4.1: unique node ids, unique edge ids,
every edge endpoint referencing an existing node, and every edge
handle id valid for its node's kind. -/

/-- Edge end `nid`/`h` references an existing node whose handle set
(per its kind) contains the handle id. -/
def validHandleRef (nodes : List RFNode) (nid : String) (h : Option String) : Prop :=
  ∃ n ∈ nodes, n.id = nid ∧ ∃ hid ∈ h.toList, hid ∈ handleIdsFor n.ty

instance (nodes : List RFNode) (nid : String) (h : Option String) :
    Decidable (validHandleRef nodes nid h) := by
  unfold validHandleRef; infer_instance

/-- The structural invariants of the diagram graph model (`validate`). -/
def validate (s : EditorState) : Prop :=
  (nodeIds s).Nodup ∧ (edgeIds s).Nodup ∧
  ∀ e ∈ s.edges,
    validHandleRef s.nodes e.source e.sourceHandle ∧
    validHandleRef s.nodes e.target e.targetHandle

instance (s : EditorState) : Decidable (validate s) := by
  unfold validate; infer_instance

/-! ## Well-formedness guards

`onConnect` and `handleDeleteSelected` perform no checking of their
own, so structural validity is only preserved when the environment
feeds them well-formed requests: a connection must name existing nodes
with handle ids their kinds expose and a not-yet-used millisecond
timestamp, and a deletion's selection must include every edge incident
to a selected node (as React Flow's built-in delete-key path arranges).
`goodOp`/`goodSeq` make those side conditions explicit. -/

def goodOp (s : EditorState) : Op → Bool
  | .connect source target sh th now =>
    decide (validHandleRef s.nodes source sh) &&
      decide (validHandleRef s.nodes target th) &&
      decide (edgeIdStr now ∉ edgeIds s)
  | .deleteSelected =>
    decide (∀ e ∈ s.edges, ∀ n ∈ s.nodes,
      (n.id = e.source ∨ n.id = e.target) → n.selected = true → e.selected = true)
  | _ => true

def goodSeq : EditorState → List Op → Bool
  | _, [] => true
  | s, op :: ops => goodOp s op && goodSeq (step s op) ops

/-! ## Preservation lemmas -/

/-- Every node id in the state was minted at a counter value below the
current one — the discipline `generateNodeId`'s post-increment keeps. -/
def CounterInv (s : EditorState) : Prop :=
  ∀ n ∈ s.nodes, ∃ k, k < s.counter ∧ n.id = nodeIdStr k

theorem counterInv_init : CounterInv initState := by
  intro n hn
  simp [initState] at hn

theorem fresh_nodeId {s : EditorState} (hc : CounterInv s) :
    nodeIdStr s.counter ∉ nodeIds s := by
  intro hmem
  simp only [nodeIds, List.mem_map] at hmem
  obtain ⟨n, hn, hid⟩ := hmem
  obtain ⟨k, hk, hnid⟩ := hc n hn
  rw [hnid] at hid
  exact absurd (nodeIdStr_injective hid) (by omega)

theorem counterInv_step {s : EditorState} (hc : CounterInv s) (op : Op) :
    CounterInv (step s op) := by
  cases op with
  | drop ty parsed x y =>
    by_cases hty : ty = ""
    · simpa [step, hty] using hc
    · intro n hn
      simp only [step, hty, if_false, List.mem_append, List.mem_singleton] at hn
      rcases hn with hn | hn
      · obtain ⟨k, hk, hid⟩ := hc n hn
        exact ⟨k, by simp [step, hty]; omega, hid⟩
      · exact ⟨s.counter, by simp [step, hty, hn]⟩
  | setEdgeType ty => exact hc
  | connect source target sh th now => exact hc
  | select selN selE =>
    intro n hn
    simp only [step, List.mem_map] at hn
    obtain ⟨m, hm, rfl⟩ := hn
    obtain ⟨k, hk, hid⟩ := hc m hm
    exact ⟨k, hk, hid⟩
  | deleteSelected =>
    intro n hn
    simp only [step] at hn
    exact hc n (List.mem_of_mem_filter hn)
  | relabelNode id text =>
    intro n hn
    simp only [step, List.mem_map] at hn
    obtain ⟨m, hm, rfl⟩ := hn
    obtain ⟨k, hk, hid⟩ := hc m hm
    refine ⟨k, hk, ?_⟩
    simp only [relabelNodeFn]
    split <;> simpa using hid
  | relabelEdge id text => exact hc

theorem nodupNodeIds_step {s : EditorState} (hc : CounterInv s)
    (hnd : (nodeIds s).Nodup) (op : Op) : (nodeIds (step s op)).Nodup := by
  cases op with
  | drop ty parsed x y =>
    by_cases hty : ty = ""
    · simpa [step, hty] using hnd
    · have hfresh := fresh_nodeId hc
      simp only [step, hty, if_false, nodeIds, List.map_append, List.map_cons,
        List.map_nil] at hnd ⊢
      refine List.Nodup.append hnd (List.nodup_singleton _) ?_
      intro a ha hb
      simp only [List.mem_singleton] at hb
      subst hb
      exact hfresh (by simpa [nodeIds] using ha)
  | setEdgeType ty => exact hnd
  | connect source target sh th now => exact hnd
  | select selN selE =>
    simpa [step, nodeIds, List.map_map, Function.comp] using hnd
  | deleteSelected =>
    simp only [step, nodeIds]
    exact (hnd.sublist (List.Sublist.map _ (List.filter_sublist _)))
  | relabelNode id text =>
    have : nodeIds (step s (.relabelNode id text)) = nodeIds s := by
      simp only [step, nodeIds, List.map_map]
      apply List.map_congr_left
      intro n _
      simp only [Function.comp_apply, relabelNodeFn]
      split <;> rfl
    rw [this]; exact hnd
  | relabelEdge id text => exact hnd

theorem validHandleRef_append {nodes : List RFNode} {m : RFNode}
    {nid : String} {h : Option String} (hv : validHandleRef nodes nid h) :
    validHandleRef (nodes ++ [m]) nid h := by
  obtain ⟨n, hn, hrest⟩ := hv
  exact ⟨n, List.mem_append_left _ hn, hrest⟩

/-- Mapping nodes with an id- and type-preserving function keeps every
handle reference valid. -/
theorem validHandleRef_map {nodes : List RFNode} (f : RFNode → RFNode)
    (hf : ∀ n, (f n).id = n.id ∧ (f n).ty = n.ty)
    {nid : String} {h : Option String} (hv : validHandleRef nodes nid h) :
    validHandleRef (nodes.map f) nid h := by
  obtain ⟨n, hn, hid, hid', hh, hh'⟩ := hv
  refine ⟨f n, List.mem_map_of_mem f hn, ?_, hid', hh, ?_⟩
  · rw [(hf n).1]; exact hid
  · rw [(hf n).2]; exact hh'

theorem validate_step {s : EditorState} (hc : CounterInv s)
    (hv : validate s) (op : Op) (hg : goodOp s op = true) :
    validate (step s op) := by
  obtain ⟨hn, he, hr⟩ := hv
  cases op with
  | drop ty parsed x y =>
    by_cases hty : ty = ""
    · simpa [step, hty] using ⟨hn, he, hr⟩
    · refine ⟨nodupNodeIds_step hc hn (.drop ty parsed x y), ?_, ?_⟩
      · simpa [step, hty, edgeIds] using he
      · intro e hememb
        simp only [step, hty, if_false] at hememb ⊢
        obtain ⟨h1, h2⟩ := hr e hememb
        exact ⟨validHandleRef_append h1, validHandleRef_append h2⟩
  | setEdgeType ty => exact ⟨hn, he, hr⟩
  | connect source target sh th now =>
    simp only [goodOp, Bool.and_eq_true, decide_eq_true_eq] at hg
    obtain ⟨⟨hvs, hvt⟩, hfresh⟩ := hg
    refine ⟨hn, ?_, ?_⟩
    · simp only [step, edgeIds, addEdge]
      split
      · exact he
      · split
        · exact he
        · simp only [List.map_append, List.map_cons, List.map_nil]
          refine List.Nodup.append he (List.nodup_singleton _) ?_
          intro a ha hb
          simp only [List.mem_singleton] at hb
          subst hb
          exact hfresh (by simpa [edgeIds, mkConnectEdge] using ha)
    · intro e hememb
      simp only [step, addEdge] at hememb
      have hnodes : (step s (.connect source target sh th now)).nodes = s.nodes := rfl
      rw [hnodes]
      split at hememb
      · exact hr e hememb
      · split at hememb
        · exact hr e hememb
        · rcases List.mem_append.mp hememb with hold | hnew
          · exact hr e hold
          · simp only [List.mem_singleton] at hnew
            subst hnew
            exact ⟨hvs, hvt⟩
  | select selN selE =>
    refine ⟨nodupNodeIds_step hc hn (.select selN selE), ?_, ?_⟩
    · simpa [step, edgeIds, List.map_map, Function.comp] using he
    · intro e hememb
      simp only [step, List.mem_map] at hememb
      obtain ⟨e₀, he₀, rfl⟩ := hememb
      obtain ⟨h1, h2⟩ := hr e₀ he₀
      simp only [step]
      constructor
      · exact validHandleRef_map
          (fun n => { n with selected := decide (n.id ∈ selN) })
          (fun n => ⟨rfl, rfl⟩) h1
      · exact validHandleRef_map
          (fun n => { n with selected := decide (n.id ∈ selN) })
          (fun n => ⟨rfl, rfl⟩) h2
  | deleteSelected =>
    simp only [goodOp, decide_eq_true_eq] at hg
    refine ⟨nodupNodeIds_step hc hn .deleteSelected, ?_, ?_⟩
    · simp only [step, edgeIds]
      exact he.sublist (List.Sublist.map _ (List.filter_sublist _))
    · intro e hememb
      simp only [step, List.mem_filter, Bool.not_eq_true'] at hememb
      obtain ⟨hemem, hesel⟩ := hememb
      obtain ⟨h1, h2⟩ := hr e hemem
      have keep : ∀ {nid h}, validHandleRef s.nodes nid h →
          (nid = e.source ∨ nid = e.target) →
          validHandleRef (s.nodes.filter fun n => !n.selected) nid h := by
        intro nid h hvr hend
        obtain ⟨n, hnm, hid, rest⟩ := hvr
        refine ⟨n, List.mem_filter.mpr ⟨hnm, ?_⟩, hid, rest⟩
        by_contra hsel
        simp only [Bool.not_eq_true', Bool.not_eq_false] at hsel
        have := hg e hemem n hnm (by rw [hid]; exact hend) hsel
        rw [this] at hesel
        exact absurd hesel (by simp)
      exact ⟨by simpa [step] using keep h1 (Or.inl rfl),
        by simpa [step] using keep h2 (Or.inr rfl)⟩
  | relabelNode id text =>
    refine ⟨nodupNodeIds_step hc hn (.relabelNode id text), ?_, ?_⟩
    · simpa [step, edgeIds] using he
    · intro e hememb
      simp only [step] at hememb ⊢
      obtain ⟨h1, h2⟩ := hr e hememb
      have hpres : ∀ n, (relabelNodeFn id text n).id = n.id ∧
          (relabelNodeFn id text n).ty = n.ty := by
        intro n
        simp only [relabelNodeFn]
        split <;> exact ⟨rfl, rfl⟩
      exact ⟨validHandleRef_map (relabelNodeFn id text) hpres h1,
        validHandleRef_map (relabelNodeFn id text) hpres h2⟩
  | relabelEdge id text =>
    refine ⟨hn, ?_, ?_⟩
    · have : edgeIds (step s (.relabelEdge id text)) = edgeIds s := by
        simp only [step, edgeIds, List.map_map]
        apply List.map_congr_left
        intro e _
        simp only [Function.comp_apply, relabelEdgeFn]
        split <;> rfl
      rw [this]; exact he
    · intro e hememb
      simp only [step, List.mem_map] at hememb
      obtain ⟨e₀, he₀, rfl⟩ := hememb
      obtain ⟨h1, h2⟩ := hr e₀ he₀
      have hfields : (relabelEdgeFn id text e₀).source = e₀.source ∧
          (relabelEdgeFn id text e₀).target = e₀.target ∧
          (relabelEdgeFn id text e₀).sourceHandle = e₀.sourceHandle ∧
          (relabelEdgeFn id text e₀).targetHandle = e₀.targetHandle := by
        simp only [relabelEdgeFn]
        split <;> exact ⟨rfl, rfl, rfl, rfl⟩
      obtain ⟨hs', ht', hsh', hth'⟩ := hfields
      rw [hs', ht', hsh', hth']
      exact ⟨h1, h2⟩

/-- Preservation along a guarded sequence. -/
theorem validate_run {s : EditorState} :
    ∀ ops, CounterInv s → validate s → goodSeq s ops = true →
      CounterInv (run s ops) ∧ validate (run s ops) := by
  intro ops
  induction ops generalizing s with
  | nil => intro hc hv _; exact ⟨hc, hv⟩
  | cons op ops ih =>
    intro hc hv hg
    simp only [goodSeq, Bool.and_eq_true] at hg
    exact ih (counterInv_step hc op) (validate_step hc hv op hg.1) hg.2

theorem validate_init : validate initState := by decide

/-! ## Edge id provenance

Every edge id the editor ever stores is `` `edge_${t}` `` for the
`Date.now()` value `t` of the connect that created it; edge ids stay
unique exactly when those clock values never repeat. -/

/-- The `Date.now()` values of the connect operations of a sequence. -/
def connectTimes : List Op → List Nat
  | [] => []
  | .connect _ _ _ _ now :: ops => now :: connectTimes ops
  | .drop _ _ _ _ :: ops => connectTimes ops
  | .setEdgeType _ :: ops => connectTimes ops
  | .select _ _ :: ops => connectTimes ops
  | .deleteSelected :: ops => connectTimes ops
  | .relabelNode _ _ :: ops => connectTimes ops
  | .relabelEdge _ _ :: ops => connectTimes ops

/-- Every stored edge id was minted at one of the clock values `seen`. -/
def EdgesFrom (seen : List Nat) (s : EditorState) : Prop :=
  ∀ i ∈ edgeIds s, ∃ t ∈ seen, i = edgeIdStr t

/-- A non-connect step only ever removes or relabels edges: the edge id
list of the new state is a sublist of the old one. -/
theorem edgeIds_step_sublist {s : EditorState} (op : Op)
    (hop : ∀ source target sh th now,
      op ≠ .connect source target sh th now) :
    List.Sublist (edgeIds (step s op)) (edgeIds s) := by
  cases op with
  | connect source target sh th now => exact absurd rfl (hop source target sh th now)
  | drop ty parsed x y =>
    by_cases hty : ty = "" <;> simp [step, hty, edgeIds]
  | setEdgeType ty => exact List.Sublist.refl _
  | select selN selE =>
    have : edgeIds (step s (.select selN selE)) = edgeIds s := by
      simp [step, edgeIds, List.map_map, Function.comp]
    rw [this]
  | deleteSelected =>
    exact List.Sublist.map _ (List.filter_sublist _)
  | relabelNode id text => exact List.Sublist.refl _
  | relabelEdge id text =>
    have : edgeIds (step s (.relabelEdge id text)) = edgeIds s := by
      simp only [step, edgeIds, List.map_map]
      apply List.map_congr_left
      intro e _
      simp only [Function.comp_apply, relabelEdgeFn]
      split <;> rfl
    rw [this]

/-- The `addEdge` call either leaves the edge list alone or appends the new edge. -/
theorem edgeIds_addEdge (e : RFEdge) (es : List RFEdge) :
    (addEdge e es).map RFEdge.id = es.map RFEdge.id ∨
      (addEdge e es).map RFEdge.id = es.map RFEdge.id ++ [e.id] := by
  unfold addEdge
  split
  · exact Or.inl rfl
  · split
    · exact Or.inl rfl
    · exact Or.inr (by simp)

/-- Along any run, edge ids stay drawn from the connect clock values,
and stay unique as long as those clock values never repeat. -/
theorem edgesFrom_run :
    ∀ ops (s : EditorState) (seen : List Nat),
      (seen ++ connectTimes ops).Nodup →
      EdgesFrom seen s → (edgeIds s).Nodup →
      EdgesFrom (seen ++ connectTimes ops) (run s ops) ∧
        (edgeIds (run s ops)).Nodup := by
  intro ops
  induction ops with
  | nil =>
    intro s seen hnd hfrom hids
    simpa [run, connectTimes] using ⟨hfrom, hids⟩
  | cons op ops ih =>
    intro s seen hnd hfrom hids
    cases op
    case connect source target sh th now =>
      have hassoc : seen ++ connectTimes (Op.connect source target sh th now :: ops)
          = (seen ++ [now]) ++ connectTimes ops := by
        simp [connectTimes]
      rw [hassoc] at hnd ⊢
      have hnotin : now ∉ seen := by
        intro hmem
        rcases List.nodup_append.mp (by simpa using hnd) with ⟨_, _, hdisj⟩
        exact hdisj hmem (by simp)
      have hids' : edgeIds (step s (.connect source target sh th now)) =
          (addEdge (mkConnectEdge s source target sh th now) s.edges).map RFEdge.id := rfl
      have hfreshid : edgeIdStr now ∉ edgeIds s := by
        intro hmem
        obtain ⟨t, ht, heq⟩ := hfrom _ hmem
        exact hnotin (edgeIdStr_injective heq ▸ ht)
      rcases edgeIds_addEdge (mkConnectEdge s source target sh th now) s.edges with
        hcase | hcase
      · refine ih _ (seen ++ [now]) hnd ?_ ?_
        · intro i hi
          have hi' : i ∈ (addEdge (mkConnectEdge s source target sh th now)
              s.edges).map RFEdge.id := hi
          rw [hcase] at hi'
          obtain ⟨t, ht, hteq⟩ := hfrom i hi'
          exact ⟨t, List.mem_append_left _ ht, hteq⟩
        · show ((addEdge (mkConnectEdge s source target sh th now)
            s.edges).map RFEdge.id).Nodup
          rw [hcase]; exact hids
      · refine ih _ (seen ++ [now]) hnd ?_ ?_
        · intro i hi
          have hi' : i ∈ (addEdge (mkConnectEdge s source target sh th now)
              s.edges).map RFEdge.id := hi
          rw [hcase] at hi'
          rcases List.mem_append.mp hi' with hmem | hmem
          · obtain ⟨t, ht, hteq⟩ := hfrom i hmem
            exact ⟨t, List.mem_append_left _ ht, hteq⟩
          · simp only [List.mem_singleton] at hmem
            exact ⟨now, List.mem_append_right _ (by simp), hmem⟩
        · show ((addEdge (mkConnectEdge s source target sh th now)
            s.edges).map RFEdge.id).Nodup
          rw [hcase]
          refine List.Nodup.append hids (List.nodup_singleton _) ?_
          intro a ha hb
          simp only [List.mem_singleton] at hb
          subst hb
          exact hfreshid ha
    all_goals
      exact ih _ seen hnd
        (fun i hi => hfrom i
          ((edgeIds_step_sublist _ (by intro a b c d e h; exact absurd h (by simp))).subset hi))
        (hids.sublist (edgeIds_step_sublist _ (by intro a b c d e h; exact absurd h (by simp))))

/-- Node ids stay counter-disciplined and duplicate-free along every
run, guarded or not. -/
theorem nodesOk_run :
    ∀ ops (s : EditorState), CounterInv s → (nodeIds s).Nodup →
      CounterInv (run s ops) ∧ (nodeIds (run s ops)).Nodup := by
  intro ops
  induction ops with
  | nil => intro s hc hnd; exact ⟨hc, hnd⟩
  | cons op ops ih =>
    intro s hc hnd
    exact ih _ (counterInv_step hc op) (nodupNodeIds_step hc hnd op)

/-- Elements of an `addEdge` result: an old edge, or the new one. -/
theorem mem_addEdge {e : RFEdge} {es : List RFEdge} :
    ∀ x ∈ addEdge e es, x ∈ es ∨ x = e := by
  intro x hx
  unfold addEdge at hx
  split at hx
  · exact Or.inl hx
  · split at hx
    · exact Or.inl hx
    · rcases List.mem_append.mp hx with h | h
      · exact Or.inl h
      · exact Or.inr (List.mem_singleton.mp h)

/-! ## Claims -/

/-- C1, counterexample: `validate` does not survive arbitrary operation
sequences from the empty diagram.  Three concrete violations: two
connects in the same `Date.now()` millisecond duplicate an edge id; a
connect naming absent nodes leaves a dangling edge; deleting a selected
node whose incident edge is unselected leaves that edge dangling. -/
theorem c1_counterexample :
    ¬ validate (run initState
      [Op.drop "actor" none 0 0, Op.drop "usecase" none 0 0,
       Op.drop "usecase" none 0 100,
       Op.connect "node_1" "node_2" (some "right-source") (some "left-target") 5,
       Op.connect "node_1" "node_3" (some "right-source") (some "left-target") 5]) ∧
    ¬ validate (run initState
      [Op.connect "a" "b" (some "right-source") (some "left-target") 0]) ∧
    ¬ validate (run initState
      [Op.drop "actor" none 0 0, Op.drop "usecase" none 200 0,
       Op.connect "node_1" "node_2" (some "right-source") (some "left-target") 7,
       Op.select ["node_1"] [], Op.deleteSelected]) := by decide

/-- C1, amended: starting from the empty diagram, `validate` holds after
every operation sequence in which each connect names existing nodes,
with handle ids their kinds expose, at a not-yet-used timestamp, and
each deletion's selection includes every edge incident to a selected
node.  (Unrestricted sequences can violate it, as the editor itself
performs none of these checks.) -/
theorem c1_validate_guarded (ops : List Op)
    (hg : goodSeq initState ops = true) :
    validate (run initState ops) :=
  (validate_run ops counterInv_init validate_init hg).2

/-- C1, witness: a guarded sequence exercising drop, connect, selection,
cascade-complete deletion and relabel, ending in a valid state. -/
theorem c1_witness :
    goodSeq initState
      [Op.drop "actor" none 0 0, Op.drop "usecase" none 200 0,
       Op.connect "node_1" "node_2" (some "right-source") (some "left-target") 7,
       Op.select ["node_1"] ["edge_7"], Op.deleteSelected,
       Op.relabelNode "node_2" " Pay "] = true ∧
    validate (run initState
      [Op.drop "actor" none 0 0, Op.drop "usecase" none 200 0,
       Op.connect "node_1" "node_2" (some "right-source") (some "left-target") 7,
       Op.select ["node_1"] ["edge_7"], Op.deleteSelected,
       Op.relabelNode "node_2" " Pay "]) :=
  ⟨by decide, c1_validate_guarded _ (by decide)⟩

/-- C2: the claim says deleting a selection cascades to every edge
incident to a deleted node, leaving no dangling edge observable.
`handleDeleteSelected` only filters by the `selected` flags: with
`node_1` selected and its incident edge `edge_7` unselected, the delete
removes `node_1` but keeps `edge_7`, whose source now references a
node absent from the diagram — exactly the dangling edge the claim
(and the spec's cascade rule, which the built-in delete-key path of
the canvas does honor) rules out. -/
theorem c2_delete_does_not_cascade :
    nodeIds (run initState
      [Op.drop "actor" none 0 0, Op.drop "usecase" none 200 0,
       Op.connect "node_1" "node_2" (some "right-source") (some "left-target") 7,
       Op.select ["node_1"] [], Op.deleteSelected]) = ["node_2"] ∧
    edgeIds (run initState
      [Op.drop "actor" none 0 0, Op.drop "usecase" none 200 0,
       Op.connect "node_1" "node_2" (some "right-source") (some "left-target") 7,
       Op.select ["node_1"] [], Op.deleteSelected]) = ["edge_7"] ∧
    ∀ e ∈ (run initState
      [Op.drop "actor" none 0 0, Op.drop "usecase" none 200 0,
       Op.connect "node_1" "node_2" (some "right-source") (some "left-target") 7,
       Op.select ["node_1"] [], Op.deleteSelected]).edges,
        e.source = "node_1" ∧ e.source ∉ nodeIds (run initState
          [Op.drop "actor" none 0 0, Op.drop "usecase" none 200 0,
           Op.connect "node_1" "node_2" (some "right-source") (some "left-target") 7,
           Op.select ["node_1"] [], Op.deleteSelected]) := by decide

/-- C5, counterexample: the claim says Actor nodes expose source and
target handles on each of the four sides; the `ActorNode` component
declares no top-side handle at all. -/
theorem c5_counterexample :
    (Side.top, Dir.src) ∉ handlesFor "actor" ∧
    "top-source" ∉ handleIdsFor "actor" := by decide

/-- C5, amended: the handle set is a pure function of the node kind,
but only UseCase nodes carry source+target handles on all four sides;
Actor nodes — like SystemBoundary nodes — carry source+target handles
on the left and right sides only. -/
theorem c5_handle_sets :
    ((Side.left, Dir.src) ∈ handlesFor "actor" ∧
     (Side.left, Dir.tgt) ∈ handlesFor "actor" ∧
     (Side.right, Dir.src) ∈ handlesFor "actor" ∧
     (Side.right, Dir.tgt) ∈ handlesFor "actor" ∧
     (Side.top, Dir.src) ∉ handlesFor "actor" ∧
     (Side.top, Dir.tgt) ∉ handlesFor "actor" ∧
     (Side.bottom, Dir.src) ∉ handlesFor "actor" ∧
     (Side.bottom, Dir.tgt) ∉ handlesFor "actor") ∧
    ((Side.left, Dir.src) ∈ handlesFor "usecase" ∧
     (Side.left, Dir.tgt) ∈ handlesFor "usecase" ∧
     (Side.right, Dir.src) ∈ handlesFor "usecase" ∧
     (Side.right, Dir.tgt) ∈ handlesFor "usecase" ∧
     (Side.top, Dir.src) ∈ handlesFor "usecase" ∧
     (Side.top, Dir.tgt) ∈ handlesFor "usecase" ∧
     (Side.bottom, Dir.src) ∈ handlesFor "usecase" ∧
     (Side.bottom, Dir.tgt) ∈ handlesFor "usecase") ∧
    ((Side.left, Dir.src) ∈ handlesFor "system" ∧
     (Side.left, Dir.tgt) ∈ handlesFor "system" ∧
     (Side.right, Dir.src) ∈ handlesFor "system" ∧
     (Side.right, Dir.tgt) ∈ handlesFor "system" ∧
     (Side.top, Dir.src) ∉ handlesFor "system" ∧
     (Side.top, Dir.tgt) ∉ handlesFor "system" ∧
     (Side.bottom, Dir.src) ∉ handlesFor "system" ∧
     (Side.bottom, Dir.tgt) ∉ handlesFor "system") := by
  refine ⟨⟨?_, ?_, ?_, ?_, ?_, ?_, ?_, ?_⟩, ⟨?_, ?_, ?_, ?_, ?_, ?_, ?_, ?_⟩,
    ⟨?_, ?_, ?_, ?_, ?_, ?_, ?_, ?_⟩⟩ <;> decide

/-- C9: for any state whose node ids respect the counter discipline
(as every state reachable from the empty editor does), a successful
drop appends exactly one node — with the freshly minted id, which is
distinct from every existing node id — at the end of the node
sequence, and leaves the prior nodes and the entire edge collection
unchanged. -/
theorem c9_addNode_appends (s : EditorState) (ty : String)
    (parsed : Option (Option String)) (x y : Int)
    (hty : ty ≠ "") (hc : CounterInv s) :
    (step s (.drop ty parsed x y)).nodes =
      s.nodes ++ [{ id := nodeIdStr s.counter, ty := ty,
                    label := dropLabel ty parsed, x := x, y := y,
                    selected := false }] ∧
    (step s (.drop ty parsed x y)).edges = s.edges ∧
    nodeIdStr s.counter ∉ nodeIds s :=
  ⟨by simp [step, hty], by simp [step, hty], fresh_nodeId hc⟩

/-- C9, witness: dropping an actor on the one-node state reached from
the empty editor appends `node_2` after `node_1`, edges untouched. -/
theorem c9_witness :
    ("actor" ≠ "" ∧ CounterInv (run initState [Op.drop "usecase" none 5 5])) ∧
    ((step (run initState [Op.drop "usecase" none 5 5])
        (.drop "actor" none 0 0)).nodes =
      (run initState [Op.drop "usecase" none 5 5]).nodes ++
        [{ id := nodeIdStr 2, ty := "actor", label := dropLabel "actor" none,
           x := 0, y := 0, selected := false }] ∧
     (step (run initState [Op.drop "usecase" none 5 5])
        (.drop "actor" none 0 0)).edges =
       (run initState [Op.drop "usecase" none 5 5]).edges ∧
     nodeIdStr 2 ∉ nodeIds (run initState [Op.drop "usecase" none 5 5])) :=
  ⟨⟨by decide, (nodesOk_run _ initState counterInv_init (by decide)).1⟩,
    c9_addNode_appends (run initState [Op.drop "usecase" none 5 5]) "actor"
      none 0 0 (by decide) (nodesOk_run _ initState counterInv_init (by decide)).1⟩

/-- C10: the drop handler degrades gracefully — a drop whose type tag
is empty leaves the state completely unchanged, and a drop whose data
blob fails to parse as JSON still creates the node, labelled with the
capitalized type name. -/
theorem c10_drop_degrades (s : EditorState) (ty : String) (x y : Int)
    (hty : ty ≠ "") :
    (∀ (parsed : Option (Option String)) (a b : Int),
      step s (.drop "" parsed a b) = s) ∧
    (step s (.drop ty none x y)).nodes =
      s.nodes ++ [{ id := nodeIdStr s.counter, ty := ty,
                    label := capitalizeFirst ty, x := x, y := y,
                    selected := false }] ∧
    (step s (.drop ty none x y)).edges = s.edges ∧
    capitalizeFirst "actor" = "Actor" ∧
    capitalizeFirst "usecase" = "Usecase" ∧
    capitalizeFirst "system" = "System" :=
  ⟨fun parsed a b => by simp [step],
   by simp [step, hty, dropLabel],
   by simp [step, hty],
   by decide, by decide, by decide⟩

/-- C10, witness: an empty-tag drop on the empty editor is a no-op, and
an actor drop with an unparsable blob yields a node labelled `Actor`. -/
theorem c10_witness :
    "actor" ≠ "" ∧
    (∀ (parsed : Option (Option String)) (a b : Int),
      step initState (.drop "" parsed a b) = initState) ∧
    (step initState (.drop "actor" none 3 4)).nodes =
      initState.nodes ++ [{ id := nodeIdStr 1, ty := "actor",
                            label := capitalizeFirst "actor", x := 3, y := 4,
                            selected := false }] :=
  ⟨by decide, (c10_drop_degrades initState "actor" 3 4 (by decide)).1,
   (c10_drop_degrades initState "actor" 3 4 (by decide)).2.1⟩


/-- C3, counterexample: the claim says a connect request with a handle
id outside its node's handle set creates no edge.  `onConnect` never
consults the handle sets: connecting from the actor `node_1` via the
nonexistent handle `top-source` still appends an edge. -/
theorem c3_counterexample :
    "top-source" ∉ handleIdsFor "actor" ∧
    (∃ n ∈ (run initState
      [Op.drop "actor" none 0 0, Op.drop "usecase" none 200 0]).nodes,
        n.id = "node_1" ∧ n.ty = "actor") ∧
    (step (run initState
        [Op.drop "actor" none 0 0, Op.drop "usecase" none 200 0])
      (Op.connect "node_1" "node_2" (some "top-source") (some "left-target") 9)).edges ≠
      (run initState
        [Op.drop "actor" none 0 0, Op.drop "usecase" none 200 0]).edges := by decide

/-- C3, amended: `onConnect` performs no handle validation of its own.
The only connect requests that leave the edge collection unchanged are
those `addEdge` rejects — an empty source or target id, or a duplicate
of an existing connection; every other request appends the built edge,
valid handles or not. -/
theorem c3_connect_no_validation (s : EditorState) (source target : String)
    (sh th : Option String) (now : Nat) :
    (source = "" ∨ target = "" ∨
        connectionExists (mkConnectEdge s source target sh th now) s.edges = true →
      (step s (.connect source target sh th now)).edges = s.edges) ∧
    (source ≠ "" → target ≠ "" →
      connectionExists (mkConnectEdge s source target sh th now) s.edges = false →
      (step s (.connect source target sh th now)).edges =
        s.edges ++ [mkConnectEdge s source target sh th now]) := by
  constructor
  · intro h
    show addEdge (mkConnectEdge s source target sh th now) s.edges = s.edges
    unfold addEdge
    split
    · rfl
    · split
      · rfl
      · rename_i hne hdup
        rcases h with h | h | h
        · exact absurd (Or.inl h) hne
        · exact absurd (Or.inr h) hne
        · exact absurd h (by simpa using hdup)
  · intro hs ht hdup
    show addEdge (mkConnectEdge s source target sh th now) s.edges =
      s.edges ++ [mkConnectEdge s source target sh th now]
    unfold addEdge
    split
    · rename_i hor
      rcases hor with h | h
      · exact absurd h hs
      · exact absurd h ht
    · split
      · rename_i hex
        rw [hdup] at hex
        exact absurd hex (by simp)
      · rfl

/-- C3, witness: on the empty editor, a connect with an empty source id
is dropped, and a connect between two (even nonexistent) named nodes is
appended. -/
theorem c3_witness :
    ((step initState (Op.connect "" "x" none none 3)).edges =
      initState.edges) ∧
    ("a" ≠ "" ∧ "b" ≠ "" ∧
      connectionExists (mkConnectEdge initState "a" "b" none none 3)
        initState.edges = false ∧
      (step initState (Op.connect "a" "b" none none 3)).edges =
        initState.edges ++ [mkConnectEdge initState "a" "b" none none 3]) :=
  ⟨(c3_connect_no_validation initState "" "x" none none 3).1 (Or.inl rfl),
   by decide, by decide, by decide,
   (c3_connect_no_validation initState "a" "b" none none 3).2
     (by decide) (by decide) (by decide)⟩

/-- C6, counterexample: the claim says edge ids are fresh even for two
creations in immediate succession.  Edge ids are `` `edge_${Date.now()}` ``:
two connects in the same millisecond (`now = 5`) between different node
pairs both mint `edge_5`, and `addEdge` admits the second edge because
only duplicate *connections*, not duplicate ids, are rejected. -/
theorem c6_counterexample :
    edgeIds (run initState
      [Op.drop "actor" none 0 0, Op.drop "usecase" none 0 0,
       Op.drop "usecase" none 0 100,
       Op.connect "node_1" "node_2" (some "right-source") (some "left-target") 5,
       Op.connect "node_1" "node_3" (some "right-source") (some "left-target") 5]) =
      ["edge_5", "edge_5"] ∧
    ¬ (edgeIds (run initState
      [Op.drop "actor" none 0 0, Op.drop "usecase" none 0 0,
       Op.drop "usecase" none 0 100,
       Op.connect "node_1" "node_2" (some "right-source") (some "left-target") 5,
       Op.connect "node_1" "node_3" (some "right-source") (some "left-target") 5])).Nodup := by
  decide

/-- C6, amended: along every operation sequence from the empty editor,
node ids (minted by the strictly increasing counter) stay unique, and
edge ids stay unique provided the `Date.now()` values of the connects
are pairwise distinct — the freshness guarantee holds up to clock
resolution, not for same-millisecond creations. -/
theorem c6_fresh_ids (ops : List Op) (ht : (connectTimes ops).Nodup) :
    (nodeIds (run initState ops)).Nodup ∧
      (edgeIds (run initState ops)).Nodup := by
  refine ⟨(nodesOk_run ops initState counterInv_init (by decide)).2, ?_⟩
  refine (edgesFrom_run ops initState [] (by simpa using ht) ?_ (by decide)).2
  intro i hi
  simp [edgeIds, initState] at hi

/-- C6, witness: distinct connect timestamps on a concrete sequence
yield pairwise distinct node and edge ids. -/
theorem c6_witness :
    (connectTimes
      [Op.drop "actor" none 0 0, Op.drop "usecase" none 0 0,
       Op.drop "usecase" none 0 100,
       Op.connect "node_1" "node_2" (some "right-source") (some "left-target") 5,
       Op.connect "node_1" "node_3" (some "right-source") (some "left-target") 6]).Nodup ∧
    ((nodeIds (run initState
      [Op.drop "actor" none 0 0, Op.drop "usecase" none 0 0,
       Op.drop "usecase" none 0 100,
       Op.connect "node_1" "node_2" (some "right-source") (some "left-target") 5,
       Op.connect "node_1" "node_3" (some "right-source") (some "left-target") 6])).Nodup ∧
     (edgeIds (run initState
      [Op.drop "actor" none 0 0, Op.drop "usecase" none 0 0,
       Op.drop "usecase" none 0 100,
       Op.connect "node_1" "node_2" (some "right-source") (some "left-target") 5,
       Op.connect "node_1" "node_3" (some "right-source") (some "left-target") 6])).Nodup) :=
  ⟨by decide, c6_fresh_ids _ (by decide)⟩

/-- C7: a connect made while the selected edge kind is `dependency`
carries `data.type = include` (the caller has no way to request
`extend`); a connect made while it is `association` carries no label
and no dependency data; and the spec's scenario — actor, use case,
then an association connect — yields two nodes and one association
edge with no label. -/
theorem c7_edge_kind_defaults :
    (∀ (s : EditorState) (source target : String) (sh th : Option String)
        (now : Nat), s.edgeType = "dependency" →
      ∀ e ∈ (step s (.connect source target sh th now)).edges,
        e ∈ s.edges ∨ (e.ty = "dependency" ∧ e.depType = some "include")) ∧
    (∀ (s : EditorState) (source target : String) (sh th : Option String)
        (now : Nat), s.edgeType = "association" →
      ∀ e ∈ (step s (.connect source target sh th now)).edges,
        e ∈ s.edges ∨
          (e.ty = "association" ∧ e.label = none ∧ e.depType = none)) ∧
    ((run initState
      [Op.drop "actor" (some (some "Customer")) 0 0,
       Op.drop "usecase" (some (some "Checkout")) 200 0,
       Op.connect "node_1" "node_2" (some "right-source") (some "left-target") 42]).nodes.length = 2 ∧
     (run initState
      [Op.drop "actor" (some (some "Customer")) 0 0,
       Op.drop "usecase" (some (some "Checkout")) 200 0,
       Op.connect "node_1" "node_2" (some "right-source") (some "left-target") 42]).edges.length = 1 ∧
     ∀ e ∈ (run initState
      [Op.drop "actor" (some (some "Customer")) 0 0,
       Op.drop "usecase" (some (some "Checkout")) 200 0,
       Op.connect "node_1" "node_2" (some "right-source") (some "left-target") 42]).edges,
        e.ty = "association" ∧ e.label = none ∧ e.depType = none) := by
  refine ⟨?_, ?_, by decide⟩
  · intro s source target sh th now hdep e he
    rcases mem_addEdge e he with h | rfl
    · exact Or.inl h
    · exact Or.inr (by simp [mkConnectEdge, hdep])
  · intro s source target sh th now hass e he
    rcases mem_addEdge e he with h | rfl
    · exact Or.inl h
    · refine Or.inr (by simp [mkConnectEdge, hass])

/-- C7, witness: a dependency connect on a dependency-selected state
and an association connect on the default state, instantiated. -/
theorem c7_witness :
    ((step initState (.setEdgeType "dependency")).edgeType = "dependency" ∧
      ∀ e ∈ (step (step initState (.setEdgeType "dependency"))
          (.connect "a" "b" none none 3)).edges,
        e ∈ (step initState (.setEdgeType "dependency")).edges ∨
          (e.ty = "dependency" ∧ e.depType = some "include")) ∧
    (initState.edgeType = "association" ∧
      ∀ e ∈ (step initState (.connect "a" "b" none none 3)).edges,
        e ∈ initState.edges ∨
          (e.ty = "association" ∧ e.label = none ∧ e.depType = none)) :=
  ⟨⟨by decide, c7_edge_kind_defaults.1 _ "a" "b" none none 3 (by decide)⟩,
   ⟨by decide, c7_edge_kind_defaults.2.1 initState "a" "b" none none 3 (by decide)⟩⟩


/-- An association edge carrying a user label, for exercising the edge
relabel path. -/
def c4Edge : RFEdge :=
  { id := "e1", ty := "association", source := "n1", target := "n2",
    sourceHandle := some "right-source", targetHandle := some "left-target",
    label := some "note", depType := none, selected := false }

/-- A one-edge state around `c4Edge`. -/
def c4State : EditorState :=
  { nodes := [], edges := [c4Edge], counter := 1, edgeType := "association" }

/-- A one-node state with an actor labelled `Customer`, for exercising
the node relabel path. -/
def c4NState : EditorState :=
  { nodes := [{ id := "n1", ty := "actor", label := "Customer",
                x := 0, y := 0, selected := false }],
    edges := [], counter := 2, edgeType := "association" }

/-- C4, counterexample: the claim says committing an empty relabel text
leaves every element's label unchanged.  `EditableEdgeLabel.handleSave`
has no non-empty check: committing `""` on the edge labelled `"note"`
overwrites the stored label with `""`. -/
theorem c4_counterexample :
    (∀ e ∈ c4State.edges, e.label = some "note") ∧
    jsTrim "" = "" ∧
    (∀ e ∈ (step c4State (.relabelEdge "e1" "")).edges,
      e.label = some "") := by decide

/-- C4, amended: node relabels behave exactly as claimed — the trimmed
text is committed when non-empty and different, and empty, whitespace
or unchanged commits leave every node label alone.  Edge relabels,
however, commit the trimmed text whenever it differs from the currently
displayed label, *including the empty string*, which overwrites a
stored edge label rather than leaving it unchanged; only an unchanged
(or unrendered) edge label is left alone. -/
theorem c4_relabel_commit :
    (∀ (s : EditorState) (nid t : String), jsTrim t = "" →
      (step s (.relabelNode nid t)).nodes = s.nodes) ∧
    (∀ (s : EditorState) (nid t : String),
      (∀ n ∈ s.nodes, n.id = nid → jsTrim t = n.label) →
      (step s (.relabelNode nid t)).nodes = s.nodes) ∧
    (∀ (s : EditorState) (nid t : String) (n : RFNode), n ∈ s.nodes →
      n.id = nid → jsTrim t ≠ "" → jsTrim t ≠ n.label →
      { n with label := jsTrim t } ∈ (step s (.relabelNode nid t)).nodes) ∧
    (∀ (s : EditorState) (nid t : String) (n : RFNode), n ∈ s.nodes →
      n.id ≠ nid → n ∈ (step s (.relabelNode nid t)).nodes) ∧
    (∀ (s : EditorState) (eid t : String) (e : RFEdge), e ∈ s.edges →
      e.id = eid → displayedLabel e ≠ "" → jsTrim t ≠ displayedLabel e →
      { e with label := some (jsTrim t) } ∈
        (step s (.relabelEdge eid t)).edges) ∧
    (∀ (s : EditorState) (eid t : String),
      (∀ e ∈ s.edges, e.id = eid →
        displayedLabel e = "" ∨ jsTrim t = displayedLabel e) →
      (step s (.relabelEdge eid t)).edges = s.edges) ∧
    (jsTrim " New " = "New" ∧ jsTrim "   " = "" ∧ jsTrim "" = "") := by
  refine ⟨?_, ?_, ?_, ?_, ?_, ?_, by decide⟩
  · intro s nid t h
    show s.nodes.map (relabelNodeFn nid t) = s.nodes
    have hfix : ∀ n ∈ s.nodes, relabelNodeFn nid t n = id n := by
      intro n _
      simp [relabelNodeFn, h]
    rw [List.map_congr_left hfix, List.map_id]
  · intro s nid t h
    show s.nodes.map (relabelNodeFn nid t) = s.nodes
    have hfix : ∀ n ∈ s.nodes, relabelNodeFn nid t n = id n := by
      intro n hn
      by_cases hid : n.id = nid
      · have := h n hn hid
        simp [relabelNodeFn, hid, ← this]
      · simp [relabelNodeFn, hid]
    rw [List.map_congr_left hfix, List.map_id]
  · intro s nid t n hn hid hne hdiff
    have heq : relabelNodeFn nid t n = { n with label := jsTrim t } := by
      simp [relabelNodeFn, hid, hne, hdiff]
    exact heq ▸ List.mem_map_of_mem (relabelNodeFn nid t) hn
  · intro s nid t n hn hid
    have heq : relabelNodeFn nid t n = n := by
      simp [relabelNodeFn, hid]
    exact heq ▸ List.mem_map_of_mem (relabelNodeFn nid t) hn
  · intro s eid t e he hid hdisp hdiff
    have heq : relabelEdgeFn eid t e = { e with label := some (jsTrim t) } := by
      simp [relabelEdgeFn, hid, hdisp, hdiff]
    exact heq ▸ List.mem_map_of_mem (relabelEdgeFn eid t) he
  · intro s eid t h
    show s.edges.map (relabelEdgeFn eid t) = s.edges
    have hfix : ∀ e ∈ s.edges, relabelEdgeFn eid t e = id e := by
      intro e he
      by_cases hid : e.id = eid
      · rcases h e he hid with hdisp | hsame
        · simp [relabelEdgeFn, hdisp]
        · simp [relabelEdgeFn, ← hsame]
      · simp [relabelEdgeFn, hid]
    rw [List.map_congr_left hfix, List.map_id]

/-- C4, witness: a whitespace commit leaves the concrete node state
untouched; a `" New "` commit stores `"New"`; an edge commit of
`" fee "` stores `"fee"` on `c4State`. -/
theorem c4_witness :
    (jsTrim "   " = "" ∧
      (step c4NState (.relabelNode "n1" "   ")).nodes = c4NState.nodes) ∧
    ({ id := "n1", ty := "actor", label := "New", x := 0, y := 0,
       selected := false } ∈
      (step c4NState (.relabelNode "n1" " New ")).nodes) ∧
    ({ c4Edge with label := some "fee" } ∈
      (step c4State (.relabelEdge "e1" " fee ")).edges) :=
  ⟨⟨by decide, c4_relabel_commit.1 c4NState "n1" "   " (by decide)⟩,
   c4_relabel_commit.2.2.1 c4NState "n1" " New "
     { id := "n1", ty := "actor", label := "Customer", x := 0, y := 0,
       selected := false } (by decide) (by decide) (by decide) (by decide),
   c4_relabel_commit.2.2.2.2.1 c4State "e1" " fee " c4Edge
     (by decide) (by decide) (by decide) (by decide)⟩

/-- C8: the dependency display label is a pure presentation derivation —
the stored label when non-empty, else the guillemet-wrapped dependency
kind, else nothing — and it is never persisted: under every operation
except an explicit edge-label commit, each stored edge label is either
absent (a freshly connected edge) or inherited unchanged from the edge
with the same id in the previous state. -/
theorem c8_display_synthesis :
    (∀ (e : RFEdge), e.ty = "dependency" →
      (e.label.getD "" ≠ "" → displayedLabel e = e.label.getD "") ∧
      (e.label.getD "" = "" → displayedLabel e = depSynthLabel e)) ∧
    (∀ (e : RFEdge), e.depType = some "include" →
      depSynthLabel e = "«include»") ∧
    (∀ (e : RFEdge), e.depType = some "extend" →
      depSynthLabel e = "«extend»") ∧
    (∀ (e : RFEdge), e.depType = none → depSynthLabel e = "") ∧
    (∀ (s : EditorState) (op : Op),
      (∀ eid t, op ≠ Op.relabelEdge eid t) →
      ∀ e ∈ (step s op).edges, e.label = none ∨
        ∃ e₀ ∈ s.edges, e₀.id = e.id ∧ e₀.label = e.label) := by
  refine ⟨?_, ?_, ?_, ?_, ?_⟩
  · intro e hdep
    constructor
    · intro hne
      simp [displayedLabel, hdep, hne]
    · intro heq
      simp [displayedLabel, hdep, heq]
  · intro e h; simp [depSynthLabel, h]
  · intro e h; simp [depSynthLabel, h]
  · intro e h; simp [depSynthLabel, h]
  · intro s op hop e he
    cases op with
    | drop ty parsed x y =>
      refine Or.inr ⟨e, ?_, rfl, rfl⟩
      by_cases hty : ty = "" <;> simpa [step, hty] using he
    | setEdgeType ty => exact Or.inr ⟨e, he, rfl, rfl⟩
    | connect source target sh th now =>
      rcases mem_addEdge e he with h | rfl
      · exact Or.inr ⟨e, h, rfl, rfl⟩
      · exact Or.inl rfl
    | select selN selE =>
      simp only [step, List.mem_map] at he
      obtain ⟨e₀, he₀, rfl⟩ := he
      exact Or.inr ⟨e₀, he₀, rfl, rfl⟩
    | deleteSelected =>
      have he' : e ∈ s.edges.filter fun x => !x.selected := he
      exact Or.inr ⟨e, List.mem_of_mem_filter he', rfl, rfl⟩
    | relabelNode nid t => exact Or.inr ⟨e, he, rfl, rfl⟩
    | relabelEdge eid t => exact absurd rfl (hop eid t)

/-- A freshly connected dependency edge: no stored label, kind
`include`. -/
def c8DepEdge : RFEdge :=
  { id := "d1", ty := "dependency", source := "n1", target := "n2",
    sourceHandle := none, targetHandle := none, label := none,
    depType := some "include", selected := false }

/-- C8, witness: the label-less include edge displays `«include»`
while storing nothing, and a selection change inherits every stored
label unchanged. -/
theorem c8_witness :
    (c8DepEdge.ty = "dependency" ∧ c8DepEdge.label = none ∧
      displayedLabel c8DepEdge = "«include»") ∧
    ((∀ eid t, (Op.select [] [] : Op) ≠ Op.relabelEdge eid t) ∧
      ∀ e ∈ (step c4State (Op.select [] [])).edges, e.label = none ∨
        ∃ e₀ ∈ c4State.edges, e₀.id = e.id ∧ e₀.label = e.label) :=
  ⟨⟨by decide, by decide, by
      have h1 := (c8_display_synthesis.1 c8DepEdge (by decide)).2 (by decide)
      have h2 := c8_display_synthesis.2.1 c8DepEdge (by decide)
      rw [h1, h2]⟩,
   ⟨fun eid t h => Op.noConfusion h,
    c8_display_synthesis.2.2.2.2 c4State (Op.select [] [])
      (fun eid t h => Op.noConfusion h)⟩⟩

end DiagramAI
